import Mathlib

/-!
Formal model of the Cuppa2 interpreter pipeline (`cuppa2_interp.py`).

The repository file `src/Notebooks/code/cuppa2_interp.py` is the driver: it
resets the shared state object, parses the input stream into `state.AST`,
and walks that AST.  The lexer, parser, state object and tree walker live in
modules that are not part of the repository snapshot, so those components are
modelled from the specification (spec.md sections 2-7): a lexer producing a
token list, a recursive-descent / precedence-climbing parser producing one
AST root (the top-level block), a chain-of-scopes runtime environment with
`define`/`get`/`set`, and a tree-walking evaluator with control signals
{Normal, Return, Break, Continue}, short-circuit logical operators,
left-to-right evaluation order, and the fatal error taxonomy (UnboundName,
TypeMismatch, DivisionByZero, ArityMismatch, SyntaxError, LexError,
ResourceExhausted).  Host-stack exhaustion is modelled by a fuel parameter
whose exhaustion is the ResourceExhausted error.  Source positions are
tracked by the lexer for diagnostics; AST nodes elide them, as no property
below depends on node positions.  Output effects are modelled as the list of
printed lines, in execution order.
-/

namespace Cuppa2

/-- Modelled from the spec: token kinds (section 3: identifier,
integer-literal, string-literal, keyword, operator, punctuation,
end-of-input). -/
inductive TokKind where
  | identT | intLitT | strLitT | keywordT | opT | punctT | eofT
deriving DecidableEq, Repr

/-- Modelled from the spec: a token is kind, lexeme text and source
position (line, column); immutable once produced. -/
structure Token where
  kind : TokKind
  lexeme : String
  line : Nat
  col : Nat
deriving DecidableEq, Repr

/-- Modelled from the spec: lexer errors carry a source position
(unterminated string, invalid character).  `outOfFuel` is the fuel marker
for the scanning loop; `tokenize` supplies enough fuel that it is never
reached. -/
inductive LexErr where
  | invalidChar (line col : Nat) (c : Char)
  | unterminatedString (line col : Nat)
  | outOfFuel
deriving DecidableEq, Repr

/-- Modelled from the spec: the keywords of the language. -/
def keywords : List String :=
  ["var", "print", "if", "else", "while", "func", "return", "break",
   "continue", "true", "false", "and", "or", "not"]

/-- Split a character list at the longest prefix satisfying `p`
(maximal-munch helper for numbers and identifiers). -/
def spanChars (p : Char → Bool) : List Char → List Char × List Char
  | [] => ([], [])
  | c :: cs =>
    if p c then
      let r := spanChars p cs
      (c :: r.1, r.2)
    else ([], c :: cs)

/-- First character of an identifier lexeme. -/
def isIdentStart (c : Char) : Bool := c.isAlpha || c = '_'

/-- Later characters of an identifier lexeme. -/
def isIdentChar (c : Char) : Bool := c.isAlphanum || c = '_'

/-- Escape mapping inside string literals. -/
def escChar (c : Char) : Char :=
  if c = 'n' then '\n' else if c = 't' then '\t' else c

/-- Modelled from the spec: body of a quoted string literal with escape
handling; fails with an unterminated-string LexError at end of input or end
of line.  Returns (content, rest, column after the closing quote). -/
def lexStrBody : Nat → List Char → Nat → Nat → List Char →
    Except LexErr (List Char × List Char × Nat)
  | 0, _, _, _, _ => .error .outOfFuel
  | fuel+1, cs, line, col, acc =>
    match cs with
    | [] => .error (.unterminatedString line col)
    | c :: rest =>
      if c = '"' then .ok (acc.reverse, rest, col + 1)
      else if c = '\n' then .error (.unterminatedString line col)
      else if c = '\\' then
        match rest with
        | [] => .error (.unterminatedString line col)
        | d :: rest' => lexStrBody fuel rest' line (col + 2) (escChar d :: acc)
      else lexStrBody fuel rest line (col + 1) (c :: acc)

/-- Modelled from the spec: the scanning loop of the lexer.  Skips
whitespace and `//` comments, classifies maximal-munch lexemes (two-character
operators before one-character ones, multi-digit numbers, quoted strings),
tracks line and column, and ends the stream with an end-of-input token.
Fails with a LexError on an invalid character or an unterminated string. -/
def lexRun : Nat → List Char → Nat → Nat → Except LexErr (List Token)
  | 0, _, _, _ => .error .outOfFuel
  | fuel+1, cs, line, col =>
    match cs with
    | [] => .ok [⟨.eofT, "", line, col⟩]
    | c :: rest =>
      if c = '\n' then lexRun fuel rest (line + 1) 1
      else if c = ' ' ∨ c = '\t' ∨ c = '\r' then lexRun fuel rest line (col + 1)
      else if c = '/' ∧ rest.head? = some '/' then
        lexRun fuel (rest.dropWhile (fun d => !(d = '\n'))) line col
      else if c.isDigit then
        let s := spanChars Char.isDigit (c :: rest)
        (lexRun fuel s.2 line (col + s.1.length)).map
          (⟨.intLitT, String.mk s.1, line, col⟩ :: ·)
      else if isIdentStart c then
        let s := spanChars isIdentChar (c :: rest)
        let w := String.mk s.1
        let k := if keywords.contains w then TokKind.keywordT else TokKind.identT
        (lexRun fuel s.2 line (col + s.1.length)).map (⟨k, w, line, col⟩ :: ·)
      else if c = '"' then
        match lexStrBody fuel rest line (col + 1) [] with
        | .error e => .error e
        | .ok (content, rest', col') =>
          (lexRun fuel rest' line col').map
            (⟨.strLitT, String.mk content, line, col⟩ :: ·)
      else if (c = '=' ∨ c = '!' ∨ c = '<' ∨ c = '>') ∧ rest.head? = some '=' then
        (lexRun fuel rest.tail line (col + 2)).map
          (⟨.opT, String.mk [c, '='], line, col⟩ :: ·)
      else if c = '+' ∨ c = '-' ∨ c = '*' ∨ c = '/' ∨ c = '<' ∨ c = '>' ∨ c = '=' then
        (lexRun fuel rest line (col + 1)).map
          (⟨.opT, String.mk [c], line, col⟩ :: ·)
      else if c = '(' ∨ c = ')' ∨ c = '{' ∨ c = '}' ∨ c = ';' ∨ c = ',' then
        (lexRun fuel rest line (col + 1)).map
          (⟨.punctT, String.mk [c], line, col⟩ :: ·)
      else .error (.invalidChar line col c)

/-- Modelled from the spec: the lexer contract (section 4.1) — given raw
source text, produce a finite token sequence terminated by an end-of-input
token, or fail with a LexError. -/
def tokenize (input : String) : Except LexErr (List Token) :=
  lexRun (input.length * 2 + 8) input.toList 1 1

/-- Modelled from the spec: binary operators of the expression grammar
(the short-circuit `and`/`or` are separate AST forms). -/
inductive BinOp where
  | add | sub | mul | div | lt | le | gt | ge | eq | ne
deriving DecidableEq, Repr

mutual
/-- Modelled from the spec: expression AST variants (section 3): literal,
identifier reference, unary op, binary op, short-circuit `and`/`or`,
function call. -/
inductive Exp where
  | intLit (n : Int)
  | strLit (s : String)
  | boolLit (b : Bool)
  | identE (x : String)
  | negE (e : Exp)
  | notE (e : Exp)
  | bin (op : BinOp) (l r : Exp)
  | andE (l r : Exp)
  | orE (l r : Exp)
  | callE (f : Exp) (args : List Exp)

/-- Modelled from the spec: statement AST variants (section 3):
variable declaration, assignment, expression-statement, print/output,
conditional, while-loop, block/sequence, function definition, return, and
the loop control statements implied by the Break/Continue control
signals. -/
inductive Stmt where
  | varDecl (x : String) (e : Exp)
  | assign (x : String) (e : Exp)
  | exprStmt (e : Exp)
  | printS (e : Exp)
  | ifS (c : Exp) (thenB : Stmt) (elseB : Option Stmt)
  | whileS (c : Exp) (body : Stmt)
  | block (ss : List Stmt)
  | funcDef (f : String) (params : List String) (body : Stmt)
  | returnS (e : Option Exp)
  | breakS
  | continueS
end

/-- Modelled from the spec: a syntax error names the found token and what
was expected (section 4.2).  `outOfFuel` is the recursion-depth marker of
the bounded parsing loops. -/
inductive SynErr where
  | unexpected (found : Token) (expected : String)
  | outOfFuel
deriving DecidableEq, Repr

/-- The end-of-input token used in errors when the token list is empty. -/
def eofTok : Token := ⟨.eofT, "", 0, 0⟩

/-- Value of a run of decimal digit characters (the integer-literal
lexemes the lexer produces). -/
def digitsVal : List Char → Nat → Nat
  | [], acc => acc
  | c :: cs, acc => digitsVal cs (acc * 10 + (c.toNat - '0'.toNat))

/-- The integer denoted by an integer-literal lexeme. -/
def lexemeInt (s : String) : Int := Int.ofNat (digitsVal s.toList 0)

/-- Whether the next token has the given kind and lexeme. -/
def peekIs (ts : List Token) (k : TokKind) (lx : String) : Bool :=
  match ts with
  | t :: _ => t.kind = k ∧ t.lexeme = lx
  | [] => false

/-- Consume one expected token or fail with a SyntaxError naming the
expected versus found token. -/
def expectTok (ts : List Token) (k : TokKind) (lx : String) :
    Except SynErr (List Token) :=
  match ts with
  | t :: rest => if t.kind = k ∧ t.lexeme = lx then .ok rest else .error (.unexpected t lx)
  | [] => .error (.unexpected eofTok lx)

/-- Modelled from the spec: the fixed precedence table of the
precedence-climbing expression parser (section 4.2: unary > multiplicative >
additive > relational > equality > logical-and > logical-or).  Level 0 is
`or`, level 5 is multiplicative; each level maps its operator tokens to the
AST constructor. -/
def levelOpOf (lvl : Nat) (t : Token) : Option (Exp → Exp → Exp) :=
  match lvl with
  | 0 => if t.kind = .keywordT ∧ t.lexeme = "or" then some Exp.orE else none
  | 1 => if t.kind = .keywordT ∧ t.lexeme = "and" then some Exp.andE else none
  | 2 =>
    if t.kind = .opT ∧ t.lexeme = "==" then some (Exp.bin .eq)
    else if t.kind = .opT ∧ t.lexeme = "!=" then some (Exp.bin .ne)
    else none
  | 3 =>
    if t.kind = .opT ∧ t.lexeme = "<" then some (Exp.bin .lt)
    else if t.kind = .opT ∧ t.lexeme = "<=" then some (Exp.bin .le)
    else if t.kind = .opT ∧ t.lexeme = ">" then some (Exp.bin .gt)
    else if t.kind = .opT ∧ t.lexeme = ">=" then some (Exp.bin .ge)
    else none
  | 4 =>
    if t.kind = .opT ∧ t.lexeme = "+" then some (Exp.bin .add)
    else if t.kind = .opT ∧ t.lexeme = "-" then some (Exp.bin .sub)
    else none
  | 5 =>
    if t.kind = .opT ∧ t.lexeme = "*" then some (Exp.bin .mul)
    else if t.kind = .opT ∧ t.lexeme = "/" then some (Exp.bin .div)
    else none
  | _ => none

mutual
/-- Modelled from the spec: primary expressions of the single-pass
recursive-descent parser — literals, identifier references and
parenthesized groupings. -/
def parsePrimary : Nat → List Token → Except SynErr (Exp × List Token)
  | 0, _ => .error .outOfFuel
  | fuel+1, ts =>
    match ts with
    | t :: rest =>
      if t.kind = TokKind.intLitT then .ok (.intLit (lexemeInt t.lexeme), rest)
      else if t.kind = TokKind.strLitT then .ok (.strLit t.lexeme, rest)
      else if t.kind = TokKind.keywordT ∧ t.lexeme = "true" then .ok (.boolLit true, rest)
      else if t.kind = TokKind.keywordT ∧ t.lexeme = "false" then .ok (.boolLit false, rest)
      else if t.kind = TokKind.identT then .ok (.identE t.lexeme, rest)
      else if t.kind = TokKind.punctT ∧ t.lexeme = "(" then
        match parseBin fuel 0 rest with
        | .error e => .error e
        | .ok (e, rest') => (expectTok rest' .punctT ")").map (fun r => (e, r))
      else .error (.unexpected t "expression")
    | [] => .error (.unexpected eofTok "expression")

/-- Modelled from the spec: postfix call position — function-call binds
tighter than any binary operator (section 4.2). -/
def parsePostfix : Nat → List Token → Except SynErr (Exp × List Token)
  | 0, _ => .error .outOfFuel
  | fuel+1, ts =>
    match parsePrimary fuel ts with
    | .error e => .error e
    | .ok (e, rest) => parseCallLoop fuel e rest

/-- Modelled from the spec: iterated call suffixes `f(a, b)(c)`. -/
def parseCallLoop : Nat → Exp → List Token → Except SynErr (Exp × List Token)
  | 0, _, _ => .error .outOfFuel
  | fuel+1, f, ts =>
    if peekIs ts .punctT "(" then
      match parseArgs fuel ts.tail with
      | .error e => .error e
      | .ok (args, rest) => parseCallLoop fuel (.callE f args) rest
    else .ok (f, ts)

/-- Modelled from the spec: an argument list after the opening parenthesis,
arguments parsed left to right, through the closing parenthesis. -/
def parseArgs : Nat → List Token → Except SynErr (List Exp × List Token)
  | 0, _ => .error .outOfFuel
  | fuel+1, ts =>
    if peekIs ts .punctT ")" then .ok ([], ts.tail)
    else
      match parseBin fuel 0 ts with
      | .error e => .error e
      | .ok (a, rest) => parseArgsMore fuel a rest

/-- Modelled from the spec: the remaining comma-separated arguments. -/
def parseArgsMore : Nat → Exp → List Token → Except SynErr (List Exp × List Token)
  | 0, _, _ => .error .outOfFuel
  | fuel+1, a, ts =>
    if peekIs ts .punctT "," then
      match parseBin fuel 0 ts.tail with
      | .error e => .error e
      | .ok (b, rest) =>
        (parseArgsMore fuel b rest).map (fun p => (a :: p.1, p.2))
    else if peekIs ts .punctT ")" then .ok ([a], ts.tail)
    else
      match ts with
      | t :: _ => .error (.unexpected t ")")
      | [] => .error (.unexpected eofTok ")")

/-- Modelled from the spec: unary operators bind tightest. -/
def parseUnary : Nat → List Token → Except SynErr (Exp × List Token)
  | 0, _ => .error .outOfFuel
  | fuel+1, ts =>
    if peekIs ts .opT "-" then
      (parseUnary fuel ts.tail).map (fun p => (Exp.negE p.1, p.2))
    else if peekIs ts .keywordT "not" then
      (parseUnary fuel ts.tail).map (fun p => (Exp.notE p.1, p.2))
    else parsePostfix fuel ts

/-- Modelled from the spec: precedence climbing over the levels of
`levelOpOf`; each level parses the next-tighter level and then folds its own
operators left-associatively. -/
def parseBin : Nat → Nat → List Token → Except SynErr (Exp × List Token)
  | 0, _, _ => .error .outOfFuel
  | fuel+1, lvl, ts =>
    if lvl ≥ 6 then parseUnary fuel ts
    else
      match parseBin fuel (lvl + 1) ts with
      | .error e => .error e
      | .ok (l, rest) => parseBinLoop fuel lvl l rest

/-- Modelled from the spec: the left-associative operator fold of one
precedence level. -/
def parseBinLoop : Nat → Nat → Exp → List Token → Except SynErr (Exp × List Token)
  | 0, _, _, _ => .error .outOfFuel
  | fuel+1, lvl, l, ts =>
    match ts with
    | t :: rest =>
      match levelOpOf lvl t with
      | some mk =>
        match parseBin fuel (lvl + 1) rest with
        | .error e => .error e
        | .ok (r, rest') => parseBinLoop fuel lvl (mk l r) rest'
      | none => .ok (l, ts)
    | [] => .ok (l, ts)
end

/-- Entry point of the expression parser. -/
def parseExpTop (fuel : Nat) (ts : List Token) : Except SynErr (Exp × List Token) :=
  parseBin fuel 0 ts

/-- Modelled from the spec: a variable declaration `var x = e ;` — creates
a binding in the current scope. -/
def parseVarDecl (fuel : Nat) (ts : List Token) : Except SynErr (Stmt × List Token) :=
  match ts with
  | t :: rest =>
    if t.kind = TokKind.identT then
      match expectTok rest .opT "=" with
      | .error e => .error e
      | .ok rest' =>
        match parseExpTop fuel rest' with
        | .error e => .error e
        | .ok (e, rest'') =>
          (expectTok rest'' .punctT ";").map (fun r => (Stmt.varDecl t.lexeme e, r))
    else .error (.unexpected t "identifier")
  | [] => .error (.unexpected eofTok "identifier")

/-- Modelled from the spec: assignment statements `x = e ;` and expression
statements `e ;`, told apart by the bounded two-token lookahead of the
single-pass parser (section 4.2: no backtracking). -/
def parseSimple (fuel : Nat) (ts : List Token) : Except SynErr (Stmt × List Token) :=
  match ts with
  | t :: t2 :: rest =>
    if t.kind = TokKind.identT ∧ t2.kind = TokKind.opT ∧ t2.lexeme = "=" then
      match parseExpTop fuel rest with
      | .error e => .error e
      | .ok (e, rest') =>
        (expectTok rest' .punctT ";").map (fun r => (Stmt.assign t.lexeme e, r))
    else
      match parseExpTop fuel ts with
      | .error e => .error e
      | .ok (e, rest') =>
        (expectTok rest' .punctT ";").map (fun r => (Stmt.exprStmt e, r))
  | _ =>
    match parseExpTop fuel ts with
    | .error e => .error e
    | .ok (e, rest') =>
      (expectTok rest' .punctT ";").map (fun r => (Stmt.exprStmt e, r))

/-- Modelled from the spec: the parameter list of a function definition. -/
def parseParams : Nat → List Token → Except SynErr (List String × List Token)
  | 0, _ => .error .outOfFuel
  | fuel+1, ts =>
    if peekIs ts .punctT ")" then .ok ([], ts.tail)
    else
      match ts with
      | t :: rest =>
        if t.kind = TokKind.identT then
          if peekIs rest .punctT "," then
            (parseParams fuel rest.tail).map (fun p => (t.lexeme :: p.1, p.2))
          else if peekIs rest .punctT ")" then .ok ([t.lexeme], rest.tail)
          else
            match rest with
            | u :: _ => .error (.unexpected u ")")
            | [] => .error (.unexpected eofTok ")")
        else .error (.unexpected t "identifier")
      | [] => .error (.unexpected eofTok "identifier")

/-- Whether the token list is at end of input. -/
def atEof (ts : List Token) : Bool :=
  match ts with
  | t :: _ => t.kind = TokKind.eofT
  | [] => true

mutual
/-- Modelled from the spec: recursive descent over statements (section 4.2).
The dangling `else` binds to the nearest unmatched conditional, which this
single-pass descent does by attaching an `else` eagerly. -/
def parseStmt : Nat → List Token → Except SynErr (Stmt × List Token)
  | 0, _ => .error .outOfFuel
  | fuel+1, ts =>
    if peekIs ts .keywordT "var" then parseVarDecl fuel ts.tail
    else if peekIs ts .keywordT "print" then
      match parseExpTop fuel ts.tail with
      | .error e => .error e
      | .ok (e, rest) =>
        (expectTok rest .punctT ";").map (fun r => (Stmt.printS e, r))
    else if peekIs ts .keywordT "if" then
      match expectTok ts.tail .punctT "(" with
      | .error e => .error e
      | .ok rest =>
        match parseExpTop fuel rest with
        | .error e => .error e
        | .ok (c, rest') =>
          match expectTok rest' .punctT ")" with
          | .error e => .error e
          | .ok rest'' =>
            match parseStmt fuel rest'' with
            | .error e => .error e
            | .ok (thenB, rest3) =>
              if peekIs rest3 .keywordT "else" then
                (parseStmt fuel rest3.tail).map
                  (fun p => (Stmt.ifS c thenB (some p.1), p.2))
              else .ok (Stmt.ifS c thenB none, rest3)
    else if peekIs ts .keywordT "while" then
      match expectTok ts.tail .punctT "(" with
      | .error e => .error e
      | .ok rest =>
        match parseExpTop fuel rest with
        | .error e => .error e
        | .ok (c, rest') =>
          match expectTok rest' .punctT ")" with
          | .error e => .error e
          | .ok rest'' =>
            (parseStmt fuel rest'').map (fun p => (Stmt.whileS c p.1, p.2))
    else if peekIs ts .punctT "\x7b" then
      match parseStmtList fuel ts.tail with
      | .error e => .error e
      | .ok (ss, rest) =>
        (expectTok rest .punctT "\x7d").map (fun r => (Stmt.block ss, r))
    else if peekIs ts .keywordT "func" then
      match ts.tail with
      | t :: rest =>
        if t.kind = TokKind.identT then
          match expectTok rest .punctT "(" with
          | .error e => .error e
          | .ok rest' =>
            match parseParams fuel rest' with
            | .error e => .error e
            | .ok (ps, rest'') =>
              (parseStmt fuel rest'').map
                (fun p => (Stmt.funcDef t.lexeme ps p.1, p.2))
        else .error (.unexpected t "identifier")
      | [] => .error (.unexpected eofTok "identifier")
    else if peekIs ts .keywordT "return" then
      if peekIs ts.tail .punctT ";" then .ok (Stmt.returnS none, ts.tail.tail)
      else
        match parseExpTop fuel ts.tail with
        | .error e => .error e
        | .ok (e, rest) =>
          (expectTok rest .punctT ";").map (fun r => (Stmt.returnS (some e), r))
    else if peekIs ts .keywordT "break" then
      (expectTok ts.tail .punctT ";").map (fun r => (Stmt.breakS, r))
    else if peekIs ts .keywordT "continue" then
      (expectTok ts.tail .punctT ";").map (fun r => (Stmt.continueS, r))
    else parseSimple fuel ts

/-- Modelled from the spec: a statement sequence, ended by `}` or end of
input (the callers consume the closer). -/
def parseStmtList : Nat → List Token → Except SynErr (List Stmt × List Token)
  | 0, _ => .error .outOfFuel
  | fuel+1, ts =>
    if peekIs ts .punctT "\x7d" ∨ atEof ts then .ok ([], ts)
    else
      match parseStmt fuel ts with
      | .error e => .error e
      | .ok (s, rest) =>
        (parseStmtList fuel rest).map (fun p => (s :: p.1, p.2))
end

/-- Modelled from the spec: the parser contract (section 4.2) — consume the
token sequence and produce one AST root (the single top-level block,
section 3), or fail with a SyntaxError. -/
def parseProgram (ts : List Token) : Except SynErr Stmt :=
  match parseStmtList (ts.length * 32 + 32) ts with
  | .error e => .error e
  | .ok (ss, rest) =>
    if atEof rest then .ok (Stmt.block ss)
    else
      match rest with
      | t :: _ => .error (.unexpected t "end of input")
      | [] => .ok (Stmt.block ss)

/-- Modelled from the spec: the dynamic runtime value (section 3) — a
tagged union of integer, string, boolean, null and function closure; a
closure records its name (so that a call can reach itself recursively),
its parameter list, its body, and the environment captured at its
definition point.  Floats and lists are outside the modelled subset; no
property at issue mentions them. -/
inductive Value where
  | int (n : Int)
  | bool (b : Bool)
  | str (s : String)
  | null
  | closure (name : String) (params : List String) (body : Stmt)
      (captured : List (List (String × Value)))

/-- Modelled from the spec: one scope, a mapping from names to values. -/
abbrev Scope := List (String × Value)

/-- Modelled from the spec: the environment is a chain of scopes; the head
is the current scope, the tail the enclosing ones (parent links). -/
abbrev Env := List Scope

/-- Modelled from the spec: runtime errors of the evaluator's taxonomy
(section 7).  `redefinedName` is the failure of `define` on a name already
defined in the current scope (section 4.3); `resourceExhausted` models
exhaustion of the host recursion limit. -/
inductive RErr where
  | unboundName (x : String)
  | redefinedName (x : String)
  | typeMismatch
  | divisionByZero
  | arityMismatch
  | resourceExhausted
deriving DecidableEq, Repr

/-- Modelled from the spec: control signals of the evaluator (section 4.4):
{Normal, Return(Value), Break, Continue}. -/
inductive Signal where
  | normal
  | ret (v : Value)
  | brk
  | cont

/-- Lookup of a name in one scope. -/
def scLookup (x : String) : Scope → Option Value
  | [] => none
  | (y, v) :: rest => if y = x then some v else scLookup x rest

/-- Replace the value of a name in one scope (used by `set`). -/
def scUpdate (x : String) (v : Value) : Scope → Scope
  | [] => []
  | (y, w) :: rest => if y = x then (y, v) :: rest else (y, w) :: scUpdate x v rest

/-- Modelled from the spec: `get(name)` resolves outward through the parent
chain and fails with UnboundName if the chain is exhausted (section 4.3). -/
def envGet (x : String) : Env → Except RErr Value
  | [] => .error (.unboundName x)
  | sc :: rest =>
    match scLookup x sc with
    | some v => .ok v
    | none => envGet x rest

/-- Modelled from the spec: `set(name, value)` mutates the nearest enclosing
scope that already defines the name and fails with UnboundName if none does
— assignment never implicitly creates a global (section 4.3). -/
def envSet (x : String) (v : Value) : Env → Except RErr Env
  | [] => .error (.unboundName x)
  | sc :: rest =>
    if (scLookup x sc).isSome then .ok (scUpdate x v sc :: rest)
    else (envSet x v rest).map (sc :: ·)

/-- Modelled from the spec: `define(name, value)` creates a binding in the
current scope and fails if the name is already defined in this scope;
shadowing in a nested scope is allowed (section 4.3). -/
def envDefine (x : String) (v : Value) : Env → Except RErr Env
  | [] => .error (.unboundName x)
  | sc :: rest =>
    if (scLookup x sc).isSome then .error (.redefinedName x)
    else .ok (((x, v) :: sc) :: rest)

/-- Modelled from the spec: the documented truthiness coercion — zero and
the empty string are falsy, as are `false` and null; everything else is
truthy (section 4.4's example rule, fixed here as the design choice). -/
def truthy : Value → Bool
  | .bool b => b
  | .int n => !(n = 0)
  | .str s => !s.isEmpty
  | .null => false
  | .closure _ _ _ _ => true

/-- Rendering of a value by the built-in print operation. -/
def render : Value → String
  | .int n => toString n
  | .bool b => if b then "true" else "false"
  | .str s => s
  | .null => "null"
  | .closure f _ _ _ => "<function " ++ f ++ ">"

/-- Modelled from the spec: the non-short-circuit binary operations.
Arithmetic and ordering require integers (`+` also concatenates strings);
equality compares primitives of the same kind; a divisor of zero is the
DivisionByZero error; anything else is a TypeMismatch. -/
def applyBin : BinOp → Value → Value → Except RErr Value
  | .add, .int a, .int b => .ok (.int (a + b))
  | .add, .str a, .str b => .ok (.str (a ++ b))
  | .sub, .int a, .int b => .ok (.int (a - b))
  | .mul, .int a, .int b => .ok (.int (a * b))
  | .div, .int a, .int b => if b = 0 then .error .divisionByZero else .ok (.int (a / b))
  | .lt, .int a, .int b => .ok (.bool (decide (a < b)))
  | .le, .int a, .int b => .ok (.bool (decide (a ≤ b)))
  | .gt, .int a, .int b => .ok (.bool (decide (b < a)))
  | .ge, .int a, .int b => .ok (.bool (decide (b ≤ a)))
  | .eq, .int a, .int b => .ok (.bool (decide (a = b)))
  | .eq, .bool a, .bool b => .ok (.bool (a == b))
  | .eq, .str a, .str b => .ok (.bool (a == b))
  | .eq, .null, .null => .ok (.bool true)
  | .ne, .int a, .int b => .ok (.bool (!decide (a = b)))
  | .ne, .bool a, .bool b => .ok (.bool (!(a == b)))
  | .ne, .str a, .str b => .ok (.bool (!(a == b)))
  | .ne, .null, .null => .ok (.bool false)
  | _, _, _ => .error .typeMismatch

mutual
/-- Modelled from the spec: `evaluate(node, environment) -> Value`
(section 4.4).  Expressions do not mutate the environment (assignment is a
statement); they may produce output through calls, so the result pairs the
value (or fatal error) with the output lines, in evaluation order.
Left-to-right evaluation order for operands and argument lists;
short-circuit `and`/`or` leave the right operand unevaluated when the left
operand determines the result; a call evaluates the callee and the
arguments, checks arity, binds parameters in a fresh scope chained to the
closure's captured environment (lexical scoping), executes the body and
yields the `Return` value or null on fall-through. -/
def evalExp : Nat → Exp → Env → Except RErr Value × List String
  | 0, _, _ => (.error .resourceExhausted, [])
  | fuel+1, e, env =>
    match e with
    | .intLit n => (.ok (.int n), [])
    | .strLit s => (.ok (.str s), [])
    | .boolLit b => (.ok (.bool b), [])
    | .identE x => (envGet x env, [])
    | .negE e1 =>
      match evalExp fuel e1 env with
      | (.ok (.int n), o) => (.ok (.int (-n)), o)
      | (.ok _, o) => (.error .typeMismatch, o)
      | (.error er, o) => (.error er, o)
    | .notE e1 =>
      match evalExp fuel e1 env with
      | (.ok v, o) => (.ok (.bool (!truthy v)), o)
      | (.error er, o) => (.error er, o)
    | .bin op l r =>
      match evalExp fuel l env with
      | (.error er, o) => (.error er, o)
      | (.ok lv, o1) =>
        match evalExp fuel r env with
        | (.error er, o2) => (.error er, o1 ++ o2)
        | (.ok rv, o2) => (applyBin op lv rv, o1 ++ o2)
    | .andE l r =>
      match evalExp fuel l env with
      | (.error er, o) => (.error er, o)
      | (.ok lv, o1) =>
        if truthy lv then
          match evalExp fuel r env with
          | (.error er, o2) => (.error er, o1 ++ o2)
          | (.ok rv, o2) => (.ok (.bool (truthy rv)), o1 ++ o2)
        else (.ok (.bool false), o1)
    | .orE l r =>
      match evalExp fuel l env with
      | (.error er, o) => (.error er, o)
      | (.ok lv, o1) =>
        if truthy lv then (.ok (.bool true), o1)
        else
          match evalExp fuel r env with
          | (.error er, o2) => (.error er, o1 ++ o2)
          | (.ok rv, o2) => (.ok (.bool (truthy rv)), o1 ++ o2)
    | .callE f args =>
      match evalExp fuel f env with
      | (.error er, o) => (.error er, o)
      | (.ok fv, o1) =>
        match evalArgs fuel args env with
        | (.error er, o2) => (.error er, o1 ++ o2)
        | (.ok vs, o2) =>
          match fv with
          | .closure name params body captured =>
            if vs.length = params.length then
              match execStmt fuel body (((name, fv) :: params.zip vs) :: captured) with
              | (.error er, o3) => (.error er, o1 ++ o2 ++ o3)
              | (.ok (.ret v, _), o3) => (.ok v, o1 ++ o2 ++ o3)
              | (.ok (_, _), o3) => (.ok .null, o1 ++ o2 ++ o3)
            else (.error .arityMismatch, o1 ++ o2)
          | _ => (.error .typeMismatch, o1 ++ o2)

/-- Modelled from the spec: argument lists are evaluated left to right;
side effects in sub-expressions are observed in source order. -/
def evalArgs : Nat → List Exp → Env → Except RErr (List Value) × List String
  | 0, _, _ => (.error .resourceExhausted, [])
  | fuel+1, es, env =>
    match es with
    | [] => (.ok [], [])
    | e :: rest =>
      match evalExp fuel e env with
      | (.error er, o) => (.error er, o)
      | (.ok v, o1) =>
        match evalArgs fuel rest env with
        | (.error er, o2) => (.error er, o1 ++ o2)
        | (.ok vs, o2) => (.ok (v :: vs), o1 ++ o2)

/-- Modelled from the spec: `execute(node, environment) -> ControlSignal`
(section 4.4), with the environment threaded explicitly and the output
lines accumulated.  A block executes its statements in order in a new
nested scope which is released on every exit path; a while-loop runs each
iteration's body in a fresh scope, catches `Break` and `Continue`, and
propagates `Return`; every error is fatal and short-circuits the rest. -/
def execStmt : Nat → Stmt → Env → Except RErr (Signal × Env) × List String
  | 0, _, _ => (.error .resourceExhausted, [])
  | fuel+1, s, env =>
    match s with
    | .varDecl x e =>
      match evalExp fuel e env with
      | (.error er, o) => (.error er, o)
      | (.ok v, o) =>
        match envDefine x v env with
        | .ok env' => (.ok (.normal, env'), o)
        | .error er => (.error er, o)
    | .assign x e =>
      match evalExp fuel e env with
      | (.error er, o) => (.error er, o)
      | (.ok v, o) =>
        match envSet x v env with
        | .ok env' => (.ok (.normal, env'), o)
        | .error er => (.error er, o)
    | .exprStmt e =>
      match evalExp fuel e env with
      | (.error er, o) => (.error er, o)
      | (.ok _, o) => (.ok (.normal, env), o)
    | .printS e =>
      match evalExp fuel e env with
      | (.error er, o) => (.error er, o)
      | (.ok v, o) => (.ok (.normal, env), o ++ [render v])
    | .ifS c thenB elseB =>
      match evalExp fuel c env with
      | (.error er, o) => (.error er, o)
      | (.ok v, o) =>
        if truthy v then
          match execStmt fuel thenB env with
          | (r, o2) => (r, o ++ o2)
        else
          match elseB with
          | some sE =>
            match execStmt fuel sE env with
            | (r, o2) => (r, o ++ o2)
          | none => (.ok (.normal, env), o)
    | .whileS c body =>
      match evalExp fuel c env with
      | (.error er, o) => (.error er, o)
      | (.ok v, o) =>
        if truthy v then
          match execStmt fuel body ([] :: env) with
          | (.error er, o2) => (.error er, o ++ o2)
          | (.ok (sig, env2), o2) =>
            match sig with
            | .brk => (.ok (.normal, env2.tail), o ++ o2)
            | .ret rv => (.ok (.ret rv, env2.tail), o ++ o2)
            | _ =>
              match execStmt fuel (.whileS c body) env2.tail with
              | (r, o3) => (r, o ++ o2 ++ o3)
        else (.ok (.normal, env), o)
    | .block ss =>
      match execList fuel ss ([] :: env) with
      | (.error er, o) => (.error er, o)
      | (.ok (sig, env2), o) => (.ok (sig, env2.tail), o)
    | .funcDef f params body =>
      match envDefine f (.closure f params body env) env with
      | .ok env' => (.ok (.normal, env'), [])
      | .error er => (.error er, [])
    | .returnS oe =>
      match oe with
      | none => (.ok (.ret .null, env), [])
      | some e =>
        match evalExp fuel e env with
        | (.error er, o) => (.error er, o)
        | (.ok v, o) => (.ok (.ret v, env), o)
    | .breakS => (.ok (.brk, env), [])
    | .continueS => (.ok (.cont, env), [])

/-- Modelled from the spec: the statement sequence of a block, in order;
the first non-Normal control signal (and any error) propagates upward and
short-circuits the remaining statements (section 4.4). -/
def execList : Nat → List Stmt → Env → Except RErr (Signal × Env) × List String
  | 0, _, _ => (.error .resourceExhausted, [])
  | fuel+1, ss, env =>
    match ss with
    | [] => (.ok (.normal, env), [])
    | s :: rest =>
      match execStmt fuel s env with
      | (.error er, o) => (.error er, o)
      | (.ok (sig, env'), o) =>
        match sig with
        | .normal =>
          match execList fuel rest env' with
          | (r, o2) => (r, o ++ o2)
        | _ => (.ok (sig, env'), o)
end

/-- Modelled from the spec: the shared run state (`cuppa2_state.state`,
design note of section 9: AST root plus root environment).  `reset` models
`state.initialize()` in the driver: whatever the state held before, it
becomes an empty AST slot and a root environment of one empty scope. -/
structure PState where
  AST : Option Stmt
  env : Env

/-- The state as `state.initialize()` leaves it, regardless of what the
previous run left behind. -/
def PState.reset (_g : PState) : PState := ⟨none, [[]]⟩

/-- The initial shared state of a fresh process. -/
def PState.start : PState := ⟨none, [[]]⟩

/-- Modelled from the spec: a static (pre-execution) failure — a LexError
or a SyntaxError. -/
inductive StaticErr where
  | lexE (e : LexErr)
  | synE (e : SynErr)
deriving DecidableEq, Repr

/-- The error outcome of one run: a static error or a runtime error. -/
inductive TopErr where
  | staticE (e : StaticErr)
  | runE (e : RErr)
deriving DecidableEq, Repr

/-- Modelled from the spec: `parser.parse(input_stream, lexer=lexer)` —
lexes and parses the whole text, stores the AST root into the shared state,
and also returns it (the driver ignores the returned value); a LexError or
SyntaxError propagates instead. -/
def parserParse (input : String) (st : PState) :
    Except StaticErr (PState × Option Stmt) :=
  match tokenize input with
  | .error e => .error (.lexE e)
  | .ok ts =>
    match parseProgram ts with
    | .error e => .error (.synE e)
    | .ok ast => .ok ({ st with AST := some ast }, some ast)

/-- The three phases of the driver `interp`, in the order its three lines
run them: state reset, lex-and-parse, AST walk. -/
inductive Phase where
  | resetPh
  | lexParsePh
  | walkPh
deriving DecidableEq, Repr

/-- The observable result of one `interp` run: which phases ran, the
success-or-error outcome (no structured value beyond that), and the output
lines in execution order. -/
structure InterpResult where
  phases : List Phase
  outcome : Except TopErr Unit
  output : List String
deriving Repr

/-- Modelled from the spec: `walk(state.AST)` — execute the AST root
against the run's root environment. -/
def walkRun (fuel : Nat) (a : Option Stmt) (env : Env) :
    Except RErr (Signal × Env) × List String :=
  match a with
  | none => (.ok (.normal, env), [])
  | some s => execStmt fuel s env

/-- The driver `interp` of `cuppa2_interp.py`, lines 10-19, over the shared
state object: `state.initialize()`, then `parser.parse(input_stream,
lexer=lexer)` (a lex or parse failure propagates and ends the run before
any walking), then `walk(state.AST)`.  The walker's signal is discarded;
the phases record which stages ran, in order. -/
def interpG (fuel : Nat) (input : String) (g : PState) : PState × InterpResult :=
  let st0 := g.reset
  match parserParse input st0 with
  | .error e => (st0, ⟨[.resetPh, .lexParsePh], .error (.staticE e), []⟩)
  | .ok (st1, _ret) =>
    match walkRun fuel st1.AST st1.env with
    | (.ok (_sig, env'), out) =>
      ({ st1 with env := env' }, ⟨[.resetPh, .lexParsePh, .walkPh], .ok (), out⟩)
    | (.error er, out) =>
      (st1, ⟨[.resetPh, .lexParsePh, .walkPh], .error (.runE er), out⟩)

/-- One `interp` call in a fresh process. -/
def interp (fuel : Nat) (input : String) : InterpResult :=
  (interpG fuel input PState.start).2

/-- Modelled from the spec: the process exit status — zero on successful
completion, non-zero on any lex/parse/runtime error (section 6). -/
def exitCodeOf : Except TopErr Unit → Nat
  | .ok _ => 0
  | .error _ => 1

/-- What the external CLI observes from one process run: the output lines
written to the sink and the process exit status. -/
structure CliOut where
  output : List String
  exitCode : Nat
deriving DecidableEq, Repr

/-- The `__main__` block of `cuppa2_interp.py`, lines 21-33, over a file
system modelled as a partial map from paths to contents: the single
command-line path argument names the source file, whose entire content is
read as one string and handed to `interp`; a missing file (like any
uncaught error) ends the process with a non-zero status. -/
def runMain (fs : String → Option String) (path : String) (fuel : Nat) : CliOut :=
  match fs path with
  | none => ⟨[], 1⟩
  | some text => ⟨(interp fuel text).output, exitCodeOf (interp fuel text).outcome⟩

/-- The names defined in one scope, nearest binding first. -/
def scNames (sc : Scope) : List String := sc.map Prod.fst

/-- The names defined in each scope of the chain, current scope first. -/
def envNames (env : Env) : List (List String) := env.map scNames

/-- How one statement may reshape the scope chain: the chain keeps its
length, every enclosing scope keeps exactly its names (only values may
change through `set`), and the current scope may gain new names in front
(through `define`). -/
def NamesExt (env env' : Env) : Prop :=
  env'.length = env.length ∧ (envNames env').tail = (envNames env).tail ∧
    ∃ ext, scNames (env'.headD []) = ext ++ scNames (env.headD [])

/-- A test environment for the short-circuit witness: one root scope binding
`f` to a zero-argument closure whose body prints `99` and returns `true`. -/
def demoEnv : Env :=
  [[("f", Value.closure "f" []
      (Stmt.block [Stmt.printS (Exp.intLit 99), Stmt.returnS (some (Exp.boolLit true))])
      [[]])]]

theorem scLookup_eq_none_iff (x : String) (sc : Scope) :
    scLookup x sc = none ↔ x ∉ scNames sc := by
  induction sc with
  | nil => simp [scLookup, scNames]
  | cons p rest ih =>
    obtain ⟨y, v⟩ := p
    by_cases hxy : y = x
    · subst hxy
      simp [scLookup, scNames]
    · simp [scLookup, scNames, hxy, ih, Ne.symm hxy]

theorem envGet_unbound_iff (x : String) (env : Env) :
    envGet x env = .error (.unboundName x) ↔ ∀ sc ∈ env, scLookup x sc = none := by
  induction env with
  | nil => simp [envGet]
  | cons sc rest ih =>
    cases hsc : scLookup x sc with
    | some v =>
      simp only [envGet, hsc]
      constructor
      · intro h
        cases h
      · intro h
        have := h sc (by simp)
        rw [this] at hsc
        cases hsc
    | none =>
      simp only [envGet, hsc, ih]
      constructor
      · intro h sc' hsc'
        rcases List.mem_cons.mp hsc' with h1 | h1
        · rw [h1]; exact hsc
        · exact h sc' h1
      · intro h sc' hsc'
        exact h sc' (List.mem_cons_of_mem _ hsc')

theorem envGet_unbound_congr (x : String) (env env' : Env)
    (hn : envNames env' = envNames env)
    (h : envGet x env = .error (.unboundName x)) :
    envGet x env' = .error (.unboundName x) := by
  rw [envGet_unbound_iff] at h ⊢
  intro sc' hsc'
  rw [scLookup_eq_none_iff]
  have hmem : scNames sc' ∈ envNames env := by
    rw [← hn]
    exact List.mem_map_of_mem _ hsc'
  obtain ⟨sc, hsc, hEq⟩ := List.mem_map.mp hmem
  rw [← hEq]
  exact (scLookup_eq_none_iff x sc).mp (h sc hsc)

theorem scUpdate_names (x : String) (v : Value) (sc : Scope) :
    scNames (scUpdate x v sc) = scNames sc := by
  induction sc with
  | nil => rfl
  | cons p rest ih =>
    obtain ⟨y, w⟩ := p
    by_cases h : y = x
    · simp [scUpdate, h, scNames]
    · simp only [scUpdate, h, if_false, scNames, List.map_cons]
      simpa [scNames] using ih

theorem envSet_names (x : String) (v : Value) (env env' : Env)
    (h : envSet x v env = .ok env') : envNames env' = envNames env := by
  induction env generalizing env' with
  | nil => simp [envSet] at h
  | cons sc rest ih =>
    rw [envSet] at h
    by_cases hs : (scLookup x sc).isSome
    · rw [if_pos hs] at h
      injection h with h1
      rw [← h1]
      simp [envNames, scUpdate_names]
    · rw [if_neg hs] at h
      cases he : envSet x v rest with
      | error er => rw [he] at h; cases h
      | ok rest' =>
        rw [he] at h
        injection h with h1
        rw [← h1]
        simp [envNames]
        simpa [envNames] using ih rest' he

theorem envDefine_shape (x : String) (v : Value) (env env' : Env)
    (h : envDefine x v env = .ok env') :
    ∃ sc rest, env = sc :: rest ∧ env' = ((x, v) :: sc) :: rest := by
  cases env with
  | nil => simp [envDefine] at h
  | cons sc rest =>
    rw [envDefine] at h
    by_cases hs : (scLookup x sc).isSome
    · rw [if_pos hs] at h
      cases h
    · rw [if_neg hs] at h
      injection h with h1
      exact ⟨sc, rest, rfl, h1.symm⟩

theorem namesExt_of_eq (env env' : Env) (h : envNames env' = envNames env) :
    NamesExt env env' := by
  have hlen : env'.length = env.length := by
    have h2 := congrArg List.length h
    simpa [envNames] using h2
  refine ⟨hlen, by rw [h], [], ?_⟩
  cases env with
  | nil =>
    cases env' with
    | nil => simp
    | cons a b => simp at hlen
  | cons sc rest =>
    cases env' with
    | nil => simp at hlen
    | cons sc' rest' =>
      simp only [envNames, List.map_cons, List.cons.injEq] at h
      simpa using h.1

theorem namesExt_refl (env : Env) : NamesExt env env :=
  namesExt_of_eq env env rfl

theorem namesExt_trans (e1 e2 e3 : Env) (h12 : NamesExt e1 e2) (h23 : NamesExt e2 e3) :
    NamesExt e1 e3 := by
  obtain ⟨l12, t12, ext1, hh1⟩ := h12
  obtain ⟨l23, t23, ext2, hh2⟩ := h23
  exact ⟨l23.trans l12, t23.trans t12, ext2 ++ ext1,
    by rw [hh2, hh1, List.append_assoc]⟩

theorem namesExt_pop (env env2 : Env) (h : NamesExt ([] :: env) env2) :
    envNames env2.tail = envNames env := by
  obtain ⟨hl, ht, _⟩ := h
  cases env2 with
  | nil => simp at hl
  | cons h2 t2 => simpa [envNames] using ht

theorem namesExt_define (x : String) (v : Value) (env env' : Env)
    (h : envDefine x v env = .ok env') : NamesExt env env' := by
  obtain ⟨sc, rest, he, he'⟩ := envDefine_shape x v env env' h
  subst he
  subst he'
  exact ⟨rfl, rfl, [x], by simp [scNames]⟩

theorem namesExt_set (x : String) (v : Value) (env env' : Env)
    (h : envSet x v env = .ok env') : NamesExt env env' :=
  namesExt_of_eq env env' (envSet_names x v env env' h)

theorem exec_namesExt (fuel : Nat) :
    (∀ s env sig env' out,
      execStmt fuel s env = (.ok (sig, env'), out) → NamesExt env env') ∧
    (∀ ss env sig env' out,
      execList fuel ss env = (.ok (sig, env'), out) → NamesExt env env') := by
  induction fuel with
  | zero =>
    constructor
    · intro s env sig env' out h
      simp [execStmt] at h
    · intro ss env sig env' out h
      simp [execList] at h
  | succ fuel ih =>
    obtain ⟨ihS, ihL⟩ := ih
    have hstmt : ∀ s env sig env' out,
        execStmt (fuel+1) s env = (.ok (sig, env'), out) → NamesExt env env' := by
      intro s env sig env' out h
      cases s with
      | varDecl x e =>
        rcases hv : evalExp fuel e env with ⟨er | v, o⟩
        · simp [execStmt, hv] at h
        · cases hd : envDefine x v env with
          | error er => simp [execStmt, hv, hd] at h
          | ok env1 =>
            simp only [execStmt, hv, hd, Prod.mk.injEq, Except.ok.injEq] at h
            obtain ⟨⟨hsig, henv⟩, hout⟩ := h
            subst henv
            exact namesExt_define x v env env1 hd
      | assign x e =>
        rcases hv : evalExp fuel e env with ⟨er | v, o⟩
        · simp [execStmt, hv] at h
        · cases hd : envSet x v env with
          | error er => simp [execStmt, hv, hd] at h
          | ok env1 =>
            simp only [execStmt, hv, hd, Prod.mk.injEq, Except.ok.injEq] at h
            obtain ⟨⟨hsig, henv⟩, hout⟩ := h
            subst henv
            exact namesExt_set x v env env1 hd
      | exprStmt e =>
        rcases hv : evalExp fuel e env with ⟨er | v, o⟩
        · simp [execStmt, hv] at h
        · simp only [execStmt, hv, Prod.mk.injEq, Except.ok.injEq] at h
          obtain ⟨⟨hsig, henv⟩, hout⟩ := h
          subst henv
          exact namesExt_refl env
      | printS e =>
        rcases hv : evalExp fuel e env with ⟨er | v, o⟩
        · simp [execStmt, hv] at h
        · simp only [execStmt, hv, Prod.mk.injEq, Except.ok.injEq] at h
          obtain ⟨⟨hsig, henv⟩, hout⟩ := h
          subst henv
          exact namesExt_refl env
      | ifS c thenB elseB =>
        rcases hv : evalExp fuel c env with ⟨er | v, o⟩
        · simp [execStmt, hv] at h
        · cases ht : truthy v with
          | true =>
            rcases hb : execStmt fuel thenB env with ⟨r, o2⟩
            simp only [execStmt, hv, ht, if_true, hb, Prod.mk.injEq] at h
            obtain ⟨hr, hout⟩ := h
            exact ihS thenB env sig env' o2 (by rw [hb, hr])
          | false =>
            cases elseB with
            | none =>
              simp only [execStmt, hv, ht, Bool.false_eq_true, if_false,
                Prod.mk.injEq, Except.ok.injEq] at h
              obtain ⟨⟨hsig, henv⟩, hout⟩ := h
              subst henv
              exact namesExt_refl env
            | some sE =>
              rcases hb : execStmt fuel sE env with ⟨r, o2⟩
              simp only [execStmt, hv, ht, Bool.false_eq_true, if_false, hb,
                Prod.mk.injEq] at h
              obtain ⟨hr, hout⟩ := h
              exact ihS sE env sig env' o2 (by rw [hb, hr])
      | whileS c body =>
        rcases hv : evalExp fuel c env with ⟨er | v, o⟩
        · simp [execStmt, hv] at h
        · cases ht : truthy v with
          | false =>
            simp only [execStmt, hv, ht, Bool.false_eq_true, if_false,
              Prod.mk.injEq, Except.ok.injEq] at h
            obtain ⟨⟨hsig, henv⟩, hout⟩ := h
            subst henv
            exact namesExt_refl env
          | true =>
            rcases hb : execStmt fuel body ([] :: env) with ⟨er2 | ⟨sig2, env2⟩, o2⟩
            · simp [execStmt, hv, ht, hb] at h
            · have hpop : envNames env2.tail = envNames env :=
                namesExt_pop env env2 (ihS body ([] :: env) sig2 env2 o2 hb)
              cases sig2 with
              | brk =>
                simp only [execStmt, hv, ht, if_true, hb, Prod.mk.injEq,
                  Except.ok.injEq] at h
                obtain ⟨⟨hsig, henv⟩, hout⟩ := h
                subst henv
                exact namesExt_of_eq env env2.tail hpop
              | ret rv =>
                simp only [execStmt, hv, ht, if_true, hb, Prod.mk.injEq,
                  Except.ok.injEq] at h
                obtain ⟨⟨hsig, henv⟩, hout⟩ := h
                subst henv
                exact namesExt_of_eq env env2.tail hpop
              | normal =>
                rcases hc : execStmt fuel (.whileS c body) env2.tail with ⟨r3, o3⟩
                simp only [execStmt, hv, ht, if_true, hb, hc, Prod.mk.injEq] at h
                obtain ⟨hr3, hout⟩ := h
                exact namesExt_trans env env2.tail env'
                  (namesExt_of_eq env env2.tail hpop)
                  (ihS (.whileS c body) env2.tail sig env' o3 (by rw [hc, hr3]))
              | cont =>
                rcases hc : execStmt fuel (.whileS c body) env2.tail with ⟨r3, o3⟩
                simp only [execStmt, hv, ht, if_true, hb, hc, Prod.mk.injEq] at h
                obtain ⟨hr3, hout⟩ := h
                exact namesExt_trans env env2.tail env'
                  (namesExt_of_eq env env2.tail hpop)
                  (ihS (.whileS c body) env2.tail sig env' o3 (by rw [hc, hr3]))
      | block ss =>
        rcases hb : execList fuel ss ([] :: env) with ⟨er | ⟨sig2, env2⟩, o⟩
        · simp [execStmt, hb] at h
        · simp only [execStmt, hb, Prod.mk.injEq, Except.ok.injEq] at h
          obtain ⟨⟨hsig, henv⟩, hout⟩ := h
          subst henv
          exact namesExt_of_eq env env2.tail
            (namesExt_pop env env2 (ihL ss ([] :: env) sig2 env2 o hb))
      | funcDef f params body =>
        cases hd : envDefine f (.closure f params body env) env with
        | error er => simp [execStmt, hd] at h
        | ok env1 =>
          simp only [execStmt, hd, Prod.mk.injEq, Except.ok.injEq] at h
          obtain ⟨⟨hsig, henv⟩, hout⟩ := h
          subst henv
          exact namesExt_define f _ env env1 hd
      | returnS oe =>
        cases oe with
        | none =>
          simp only [execStmt, Prod.mk.injEq, Except.ok.injEq] at h
          obtain ⟨⟨hsig, henv⟩, hout⟩ := h
          subst henv
          exact namesExt_refl env
        | some e =>
          rcases hv : evalExp fuel e env with ⟨er | v, o⟩
          · simp [execStmt, hv] at h
          · simp only [execStmt, hv, Prod.mk.injEq, Except.ok.injEq] at h
            obtain ⟨⟨hsig, henv⟩, hout⟩ := h
            subst henv
            exact namesExt_refl env
      | breakS =>
        simp only [execStmt, Prod.mk.injEq, Except.ok.injEq] at h
        obtain ⟨⟨hsig, henv⟩, hout⟩ := h
        subst henv
        exact namesExt_refl env
      | continueS =>
        simp only [execStmt, Prod.mk.injEq, Except.ok.injEq] at h
        obtain ⟨⟨hsig, henv⟩, hout⟩ := h
        subst henv
        exact namesExt_refl env
    have hlist : ∀ ss env sig env' out,
        execList (fuel+1) ss env = (.ok (sig, env'), out) → NamesExt env env' := by
      intro ss env sig env' out h
      cases ss with
      | nil =>
        simp only [execList, Prod.mk.injEq, Except.ok.injEq] at h
        obtain ⟨⟨hsig, henv⟩, hout⟩ := h
        subst henv
        exact namesExt_refl env
      | cons s rest =>
        rcases hs : execStmt fuel s env with ⟨er | ⟨sig1, env1⟩, o⟩
        · simp [execList, hs] at h
        · have h1 : NamesExt env env1 := ihS s env sig1 env1 o hs
          cases sig1 with
          | normal =>
            rcases hr : execList fuel rest env1 with ⟨r2, o2⟩
            simp only [execList, hs, hr, Prod.mk.injEq] at h
            obtain ⟨hr2, hout⟩ := h
            exact namesExt_trans env env1 env' h1
              (ihL rest env1 sig env' o2 (by rw [hr, hr2]))
          | ret v =>
            simp only [execList, hs, Prod.mk.injEq, Except.ok.injEq] at h
            obtain ⟨⟨hsig, henv⟩, hout⟩ := h
            subst henv
            exact h1
          | brk =>
            simp only [execList, hs, Prod.mk.injEq, Except.ok.injEq] at h
            obtain ⟨⟨hsig, henv⟩, hout⟩ := h
            subst henv
            exact h1
          | cont =>
            simp only [execList, hs, Prod.mk.injEq, Except.ok.injEq] at h
            obtain ⟨⟨hsig, henv⟩, hout⟩ := h
            subst henv
            exact h1
    exact ⟨hstmt, hlist⟩

theorem execBlock_names (fuel : Nat) (ss : List Stmt) (env : Env) (sig : Signal)
    (env' : Env) (out : List String)
    (h : execStmt fuel (.block ss) env = (.ok (sig, env'), out)) :
    envNames env' = envNames env := by
  cases fuel with
  | zero => simp [execStmt] at h
  | succ fuel =>
    rcases hb : execList fuel ss ([] :: env) with ⟨er | ⟨sig2, env2⟩, o⟩
    · simp [execStmt, hb] at h
    · simp only [execStmt, hb, Prod.mk.injEq, Except.ok.injEq] at h
      obtain ⟨⟨hsig, henv⟩, hout⟩ := h
      subst henv
      exact namesExt_pop env env2 ((exec_namesExt fuel).2 ss ([] :: env) sig2 env2 o hb)

theorem interpG_state_blind (fuel : Nat) (input : String) (g g' : PState) :
    interpG fuel input g = interpG fuel input g' := rfl

/-- C1: a run of the interpreter proceeds in the fixed order — the run
state is initialized, then the text is lexed and parsed, and only then is
the AST walked: the phase trace of every run is exactly
[reset, lex-parse] or [reset, lex-parse, walk], and the walk phase occurs
only when parsing has completed successfully. -/
theorem interp_phase_order (fuel : Nat) (input : String) (g : PState) :
    ((interpG fuel input g).2.phases = [Phase.resetPh, Phase.lexParsePh] ∨
     (interpG fuel input g).2.phases =
       [Phase.resetPh, Phase.lexParsePh, Phase.walkPh]) ∧
    (Phase.walkPh ∈ (interpG fuel input g).2.phases →
      ∃ p, parserParse input g.reset = .ok p) := by
  cases hp : parserParse input g.reset with
  | error e =>
    constructor
    · left
      simp [interpG, hp]
    · intro hm
      simp [interpG, hp] at hm
  | ok p =>
    obtain ⟨st1, ret⟩ := p
    rcases hw : walkRun fuel st1.AST st1.env with ⟨r, out⟩
    cases r with
    | error er =>
      constructor
      · right
        simp [interpG, hp, hw]
      · intro _
        exact ⟨(st1, ret), rfl⟩
    | ok pr =>
      obtain ⟨sig, env'⟩ := pr
      constructor
      · right
        simp [interpG, hp, hw]
      · intro _
        exact ⟨(st1, ret), rfl⟩

/-- C2: when lexing or parsing fails, the run aborts before any execution
begins — the whole result is the two pre-execution phases with the static
error, the walk phase never occurs, and no output is produced. -/
theorem static_error_aborts (fuel : Nat) (input : String) (g : PState)
    (e : StaticErr) (hp : parserParse input g.reset = .error e) :
    (interpG fuel input g).2 =
      ⟨[Phase.resetPh, Phase.lexParsePh], .error (.staticE e), []⟩ ∧
    Phase.walkPh ∉ (interpG fuel input g).2.phases ∧
    (interpG fuel input g).2.output = [] := by
  refine ⟨by simp [interpG, hp], ?_, by simp [interpG, hp]⟩
  intro hm
  simp [interpG, hp] at hm

/-- C2 witness: the source text `(` fails to parse (unexpected end of input
where an expression was expected), and the run on it produces no walk phase
and no output. -/
theorem static_error_aborts_witness :
    (interpG 5 "(" PState.start).2 =
      ⟨[Phase.resetPh, Phase.lexParsePh],
       .error (.staticE (.synE (.unexpected ⟨.eofT, "", 1, 2⟩ "expression"))), []⟩ ∧
    Phase.walkPh ∉ (interpG 5 "(" PState.start).2.phases ∧
    (interpG 5 "(" PState.start).2.output = [] :=
  static_error_aborts 5 "(" PState.start
    (.synE (.unexpected ⟨.eofT, "", 1, 2⟩ "expression")) (by rfl)

/-- C3: a variable read evaluates by environment lookup; lookup walks
parent links outward and resolves in the nearest enclosing scope that
defines the name; if no scope defines it, evaluation fails with
UnboundName; and a name unbound before a block is still unbound after the
block completes, so a variable defined only inside the block is
unreachable after it exits. -/
theorem scoping_nearest_and_block_exit :
    (∀ (fuel : Nat) (env : Env) (x : String),
      evalExp (fuel+1) (.identE x) env = (envGet x env, [])) ∧
    (∀ (x : String) (v : Value) (pre : List Scope) (sc : Scope) (rest : List Scope),
      (∀ s ∈ pre, scLookup x s = none) → scLookup x sc = some v →
      envGet x (pre ++ sc :: rest) = .ok v) ∧
    (∀ (x : String) (env : Env), (∀ sc ∈ env, scLookup x sc = none) →
      envGet x env = .error (.unboundName x)) ∧
    (∀ (fuel : Nat) (ss : List Stmt) (env : Env) (sig : Signal) (env' : Env)
        (out : List String) (x : String),
      execStmt fuel (.block ss) env = (.ok (sig, env'), out) →
      envGet x env = .error (.unboundName x) →
      envGet x env' = .error (.unboundName x)) := by
  refine ⟨?_, ?_, ?_, ?_⟩
  · intro fuel env x
    simp [evalExp]
  · intro x v pre sc rest hpre hsc
    induction pre with
    | nil => simp [envGet, hsc]
    | cons p ptail ih =>
      have hp : scLookup x p = none := hpre p (by simp)
      simp only [List.cons_append, envGet, hp]
      exact ih (fun s hs => hpre s (List.mem_cons_of_mem _ hs))
  · intro x env h
    exact (envGet_unbound_iff x env).mpr h
  · intro fuel ss env sig env' out x hexec hun
    exact envGet_unbound_congr x env env'
      (execBlock_names fuel ss env sig env' out hexec) hun

/-- C3 witness: in the chain [inner scope binding y, outer scope binding x],
reading x skips the inner scope and finds the outer binding; reading z is
UnboundName; and after the block `{ var z = 5 ; }` runs in an environment
that does not bind z, reading z is still UnboundName. -/
theorem scoping_nearest_and_block_exit_witness :
    evalExp 4 (.identE "x") [[("y", Value.int 1)], [("x", Value.int 2)]] =
      (.ok (Value.int 2), []) ∧
    envGet "x" [[("y", Value.int 1)], [("x", Value.int 2)]] = .ok (Value.int 2) ∧
    envGet "z" [[("y", Value.int 1)], [("x", Value.int 2)]] =
      .error (.unboundName "z") ∧
    execStmt 4 (.block [Stmt.varDecl "z" (.intLit 5)]) [[("y", Value.int 1)]] =
      (.ok (.normal, [[("y", Value.int 1)]]), []) ∧
    envGet "z" [[("y", Value.int 1)]] = .error (.unboundName "z") := by
  refine ⟨?_, ?_, by rfl, by rfl, ?_⟩
  · rw [scoping_nearest_and_block_exit.1 3 [[("y", Value.int 1)], [("x", Value.int 2)]] "x"]
    rfl
  · exact scoping_nearest_and_block_exit.2.1 "x" (Value.int 2)
      [[("y", Value.int 1)]] [("x", Value.int 2)] []
      (by intro s hs; simp at hs; subst hs; rfl) (by rfl)
  · exact scoping_nearest_and_block_exit.2.2.2 4 [Stmt.varDecl "z" (.intLit 5)]
      [[("y", Value.int 1)]] .normal [[("y", Value.int 1)]] [] "z" (by rfl) (by rfl)

/-- C4: the short-circuit logical operators do not evaluate the right
operand when the left operand determines the result: `false and e` and
`true or e` yield their results with exactly the left operand's output, so
no side effect of `e` is observed; in particular this holds for the
literal left operands `false` and `true`, where no output at all is
produced. -/
theorem short_circuit_and_or :
    (∀ (fuel : Nat) (e2 : Exp) (env : Env),
      evalExp (fuel+2) (.andE (.boolLit false) e2) env = (.ok (.bool false), [])) ∧
    (∀ (fuel : Nat) (e2 : Exp) (env : Env),
      evalExp (fuel+2) (.orE (.boolLit true) e2) env = (.ok (.bool true), [])) ∧
    (∀ (fuel : Nat) (l r : Exp) (env : Env) (v : Value) (o : List String),
      evalExp fuel l env = (.ok v, o) → truthy v = false →
      evalExp (fuel+1) (.andE l r) env = (.ok (.bool false), o)) ∧
    (∀ (fuel : Nat) (l r : Exp) (env : Env) (v : Value) (o : List String),
      evalExp fuel l env = (.ok v, o) → truthy v = true →
      evalExp (fuel+1) (.orE l r) env = (.ok (.bool true), o)) := by
  have hand : ∀ (fuel : Nat) (l r : Exp) (env : Env) (v : Value) (o : List String),
      evalExp fuel l env = (.ok v, o) → truthy v = false →
      evalExp (fuel+1) (.andE l r) env = (.ok (.bool false), o) := by
    intro fuel l r env v o hl ht
    simp [evalExp, hl, ht]
  have hor : ∀ (fuel : Nat) (l r : Exp) (env : Env) (v : Value) (o : List String),
      evalExp fuel l env = (.ok v, o) → truthy v = true →
      evalExp (fuel+1) (.orE l r) env = (.ok (.bool true), o) := by
    intro fuel l r env v o hl ht
    simp [evalExp, hl, ht]
  refine ⟨?_, ?_, hand, hor⟩
  · intro fuel e2 env
    exact hand (fuel+1) _ e2 env (.bool false) [] (by simp [evalExp]) rfl
  · intro fuel e2 env
    exact hor (fuel+1) _ e2 env (.bool true) [] (by simp [evalExp]) rfl

/-- C4 witness: with `f` bound to a closure that prints 99 and returns
true, `false and f()` and `true or f()` produce no output at all, while a
direct call `f()` does print 99 — so the absence of the side effect shows
`f` was not evaluated. -/
theorem short_circuit_and_or_witness :
    evalExp 10 (.andE (.boolLit false) (.callE (.identE "f") [])) demoEnv =
      (.ok (.bool false), []) ∧
    evalExp 10 (.orE (.boolLit true) (.callE (.identE "f") [])) demoEnv =
      (.ok (.bool true), []) ∧
    evalExp 10 (.callE (.identE "f") []) demoEnv = (.ok (.bool true), ["99"]) := by
  refine ⟨?_, ?_, by rfl⟩
  · exact short_circuit_and_or.1 8 (.callE (.identE "f") []) demoEnv
  · exact short_circuit_and_or.2.1 8 (.callE (.identE "f") []) demoEnv

/-- C5: a division whose divisor evaluates to zero fails with the
DivisionByZero error; an error in a statement short-circuits the rest of a
statement sequence, so no later statement produces output; and the run of
`print 1 ; print 5 / 0 ; print 2 ;` ends with the DivisionByZero error,
nonzero exit status, and output `1` only (nothing from the statement after
the failing point). -/
theorem division_by_zero_aborts :
    (∀ (fuel : Nat) (l r : Exp) (env : Env) (a : Int) (o1 o2 : List String),
      evalExp fuel l env = (.ok (.int a), o1) →
      evalExp fuel r env = (.ok (.int 0), o2) →
      evalExp (fuel+1) (.bin .div l r) env = (.error .divisionByZero, o1 ++ o2)) ∧
    (∀ (fuel : Nat) (s : Stmt) (rest : List Stmt) (env : Env) (er : RErr)
        (o : List String),
      execStmt fuel s env = (.error er, o) →
      execList (fuel+1) (s :: rest) env = (.error er, o)) ∧
    (interp 20 "print 1 ; print 5 / 0 ; print 2 ;").outcome =
      .error (.runE .divisionByZero) ∧
    (interp 20 "print 1 ; print 5 / 0 ; print 2 ;").output = ["1"] ∧
    exitCodeOf (interp 20 "print 1 ; print 5 / 0 ; print 2 ;").outcome = 1 := by
  refine ⟨?_, ?_, by rfl, by rfl, by rfl⟩
  · intro fuel l r env a o1 o2 hl hr
    simp [evalExp, hl, hr, applyBin]
  · intro fuel s rest env er o hs
    simp [execList, hs]

/-- C5 witness: `5 / 0` itself evaluates to the DivisionByZero error, and
a statement list whose head fails with it stops there, the later print
contributing nothing. -/
theorem division_by_zero_aborts_witness :
    evalExp 3 (.bin .div (.intLit 5) (.intLit 0)) [[]] =
      (.error .divisionByZero, []) ∧
    execList 4 [Stmt.printS (.bin .div (.intLit 5) (.intLit 0)),
        Stmt.printS (.intLit 2)] [[]] =
      (.error .divisionByZero, []) := by
  constructor
  · exact division_by_zero_aborts.1 2 (.intLit 5) (.intLit 0) [[]] 5 [] []
      (by rfl) (by rfl)
  · exact division_by_zero_aborts.2.1 3 (Stmt.printS (.bin .div (.intLit 5)
      (.intLit 0))) [Stmt.printS (.intLit 2)] [[]] .divisionByZero [] (by rfl)

/-- C6: interpretation is deterministic — parsing does not depend on the
incoming shared state (so parsing the same text twice yields structurally
identical results), and running the pipeline a second time on the same
text, starting from whatever state the first run left behind, yields
exactly the same observable result as the first run. -/
theorem pipeline_deterministic :
    (∀ (input : String) (g g' : PState),
      parserParse input g.reset = parserParse input g'.reset) ∧
    (∀ (fuel : Nat) (input : String) (g : PState),
      (interpG fuel input ((interpG fuel input g).1)).2 = (interpG fuel input g).2) := by
  constructor
  · intro input g g'
    rfl
  · intro fuel input g
    exact congrArg Prod.snd (interpG_state_blind fuel input ((interpG fuel input g).1) g)

/-- C7: the CLI's only recognized input is the named source file — the
run's observable behaviour depends on the file system only through the
content at the given path, and when that content exists, the whole text is
handed to the pipeline as one string, the CLI observing exactly the
pipeline's output and exit status. -/
theorem cli_single_input :
    (∀ (fs fs' : String → Option String) (path : String) (fuel : Nat),
      fs path = fs' path → runMain fs path fuel = runMain fs' path fuel) ∧
    (∀ (fs : String → Option String) (path : String) (fuel : Nat) (c : String),
      fs path = some c →
      runMain fs path fuel =
        ⟨(interp fuel c).output, exitCodeOf (interp fuel c).outcome⟩) := by
  constructor
  · intro fs fs' path fuel h
    simp only [runMain, h]
  · intro fs path fuel c h
    simp only [runMain, h]

/-- C7 witness: a file system holding `print 1 ;` at path `main.c2` makes
the CLI print `1` and exit with status zero, exactly the pipeline's result
on that content. -/
theorem cli_single_input_witness :
    runMain (fun p => if p = "main.c2" then some "print 1 ;" else none)
      "main.c2" 9 = ⟨["1"], 0⟩ := by
  rw [cli_single_input.2 (fun p => if p = "main.c2" then some "print 1 ;" else none)
    "main.c2" 9 "print 1 ;" (by rfl)]
  rfl

/-- C8: the pipeline hands back no structured value — the outcome of every
run is just success or an error; when parsing succeeds, the outcome is the
walker's result with its signal discarded (success maps to unit, a runtime
error to the error outcome), and the output lines are the only other
observable. -/
theorem walker_result_discarded :
    (∀ (fuel : Nat) (input : String) (g : PState),
      (interpG fuel input g).2.outcome = .ok () ∨
      ∃ e, (interpG fuel input g).2.outcome = .error e) ∧
    (∀ (fuel : Nat) (input : String) (g : PState) (st1 : PState)
        (ret : Option Stmt) (sig : Signal) (env' : Env) (out : List String),
      parserParse input g.reset = .ok (st1, ret) →
      walkRun fuel st1.AST st1.env = (.ok (sig, env'), out) →
      (interpG fuel input g).2.outcome = .ok () ∧
      (interpG fuel input g).2.output = out) ∧
    (∀ (fuel : Nat) (input : String) (g : PState) (st1 : PState)
        (ret : Option Stmt) (er : RErr) (out : List String),
      parserParse input g.reset = .ok (st1, ret) →
      walkRun fuel st1.AST st1.env = (.error er, out) →
      (interpG fuel input g).2.outcome = .error (.runE er) ∧
      (interpG fuel input g).2.output = out) := by
  refine ⟨?_, ?_, ?_⟩
  · intro fuel input g
    cases ho : (interpG fuel input g).2.outcome with
    | ok u => left; cases u; rfl
    | error e => right; exact ⟨e, rfl⟩
  · intro fuel input g st1 ret sig env' out hp hw
    constructor <;> simp [interpG, hp, hw]
  · intro fuel input g st1 ret er out hp hw
    constructor <;> simp [interpG, hp, hw]

/-- C8 witness: on `print 1 ;` the run's outcome is the bare success unit
and its only other observable is the printed line. -/
theorem walker_result_discarded_witness :
    (interp 9 "print 1 ;").outcome = .ok () ∧
    (interp 9 "print 1 ;").output = ["1"] :=
  walker_result_discarded.2.1 9 "print 1 ;" PState.start
    ⟨some (Stmt.block [Stmt.printS (Exp.intLit 1)]), [[]]⟩
    (some (Stmt.block [Stmt.printS (Exp.intLit 1)]))
    Signal.normal [[]] ["1"] (by rfl) (by rfl)

/-- C10: the driver passes the AST to the evaluator through the shared
state object only, and initializes the state on every invocation: the
whole run (returned state included) is independent of the state a previous
run left behind, and when parsing succeeds the run's result is exactly the
walk of the AST stored in the state by the parser — the value returned by
`parser.parse` plays no part in it. -/
theorem ast_flows_through_state :
    (∀ (fuel : Nat) (input : String) (g g' : PState),
      interpG fuel input g = interpG fuel input g') ∧
    (∀ (fuel : Nat) (input : String) (g : PState) (st1 : PState)
        (ret : Option Stmt),
      parserParse input g.reset = .ok (st1, ret) →
      (interpG fuel input g).2 =
        ⟨[Phase.resetPh, Phase.lexParsePh, Phase.walkPh],
         (match (walkRun fuel st1.AST st1.env).1 with
          | .ok _ => Except.ok ()
          | .error er => Except.error (.runE er)),
         (walkRun fuel st1.AST st1.env).2⟩) := by
  constructor
  · intro fuel input g g'
    exact interpG_state_blind fuel input g g'
  · intro fuel input g st1 ret hp
    rcases hw : walkRun fuel st1.AST st1.env with ⟨r, out⟩
    cases r with
    | error er => simp [interpG, hp, hw]
    | ok pr =>
      obtain ⟨sig, env'⟩ := pr
      simp [interpG, hp, hw]

/-- C10 witness: on `print 1 ;` the run's result is exactly the walk of
the block the parser stored into the state. -/
theorem ast_flows_through_state_witness :
    (interp 9 "print 1 ;") =
      ⟨[Phase.resetPh, Phase.lexParsePh, Phase.walkPh],
       (match (walkRun 9 (some (Stmt.block [Stmt.printS (Exp.intLit 1)]))
          [[]]).1 with
        | .ok _ => Except.ok ()
        | .error er => Except.error (.runE er)),
       (walkRun 9 (some (Stmt.block [Stmt.printS (Exp.intLit 1)])) [[]]).2⟩ :=
  ast_flows_through_state.2 9 "print 1 ;" PState.start
    ⟨some (Stmt.block [Stmt.printS (Exp.intLit 1)]), [[]]⟩
    (some (Stmt.block [Stmt.printS (Exp.intLit 1)]))
    (by rfl)

end Cuppa2
